import Mathlib

/-!
Verification model of the ClothesFinder backend (src/main.py, src/app.py).

The Python source is shallowly embedded: text is `String` / `List Char`,
Python floats that hold prices, scores and weights are modelled as exact
rationals (`ℚ`), regular expressions are modelled by executable scanners that
follow the source patterns including their backtracking order, and fallible
code paths (the undefined `SIZE_MAP` name, division by a zero `price_max`)
are modelled with `Except Unit`.
-/

/- The Batteries rational-number operations are marked irreducible, which
blocks `decide` on concrete rational arithmetic; make them unfold. -/
unseal Rat.add Rat.sub Rat.mul Rat.inv Rat.ofScientific

deriving instance DecidableEq for Except

/-! ## Character utilities (Python `str` semantics used by the source) -/

/-- Whitespace characters recognised by Python `str.strip` and the regex
class used in `clean_text` (space, tab, newline, carriage return, vertical
tab, form feed). -/
def isSpaceC (c : Char) : Bool :=
  c.toNat = 32 || c.toNat = 9 || c.toNat = 10 || c.toNat = 13 ||
  c.toNat = 11 || c.toNat = 12

/-- ASCII decimal digit, as matched by the digit class in the source regexes. -/
def isDigitC (c : Char) : Bool := '0' ≤ c && c ≤ '9'

/-- Word character for regex boundary tests: ASCII letters, digits,
underscore, and the Swedish letters appearing in the source data. -/
def isWordC (c : Char) : Bool :=
  ('a' ≤ c && c ≤ 'z') || ('A' ≤ c && c ≤ 'Z') || isDigitC c || c = '_' ||
  c = 'å' || c = 'ä' || c = 'ö' || c = 'Å' || c = 'Ä' || c = 'Ö'

/-- Lower-casing of a character as `str.lower` acts on the characters used
by the source (ASCII plus the Swedish vowels). -/
def charLower (c : Char) : Char :=
  if 'A' ≤ c && c ≤ 'Z' then Char.ofNat (c.toNat + 32)
  else if c = 'Å' then 'å'
  else if c = 'Ä' then 'ä'
  else if c = 'Ö' then 'ö'
  else c

/-! ## List-of-characters utilities -/

/-- Collapse runs of whitespace to a single space; the flag records whether
the previous character was whitespace.  Models the regex substitution in
`clean_text`. -/
def collapseWs (prevSpace : Bool) : List Char → List Char
  | [] => []
  | c :: t =>
    if isSpaceC c then
      if prevSpace then collapseWs true t else ' ' :: collapseWs true t
    else c :: collapseWs false t

/-- Remove leading and trailing whitespace (`str.strip`). -/
def stripWsL (l : List Char) : List Char :=
  ((l.dropWhile (fun c => isSpaceC c)).reverse.dropWhile
    (fun c => isSpaceC c)).reverse

/-- Model of `clean_text` from main.py: collapse whitespace runs then strip.  The
`if not t` guard of the source also yields `""` for empty input. -/
def cleanTextL (l : List Char) : List Char := stripWsL (collapseWs false l)

def cleanText (s : String) : String := ⟨cleanTextL s.data⟩

/-- Model of `str.lower`. -/
def lowerL (l : List Char) : List Char := l.map charLower

def lowerS (s : String) : String := ⟨lowerL s.data⟩

/-- Model of `str.strip` on a `String`. -/
def stripS (s : String) : String := ⟨stripWsL s.data⟩

/-- Python substring test `needle in hay` on character lists. -/
def isSubL (n : List Char) : List Char → Bool
  | [] => n.isEmpty
  | c :: t => n.isPrefixOf (c :: t) || isSubL n t

/-- Python substring test `needle in hay` on strings. -/
def isSubS (n hay : String) : Bool := isSubL n.data hay.data

/-- Model of `str.isdigit` (restricted to the ASCII digits the source deals with). -/
def isDigitStr (s : String) : Bool := !s.data.isEmpty && s.data.all isDigitC

/-! ## Synonym table (main.py `SYNONYMS`) -/

/-- The apostrophe character, used to spell the surface form of the `levi`
brand entry without a quote character inside the literal. -/
def apos : String := ⟨[Char.ofNat 39]⟩

/-- Static synonym mapping from main.py, in source order. -/
def SYNONYMS : List (String × List String) :=
  [ ("byxor", ["byxa","byxor","pants","träningsbyxor","joggers","mjukisbyxor","mysbyxor"]),
    ("jeans", ["jeans","denim","jeansen","levis","501"]),
    ("hoodie", ["hoodie","luvtröja","hoodtröja","zip hoodie","hoodie med dragkedja","hood med dragkedja"]),
    ("tröja", ["tröja","tröjor","pullover","sweater","överdel","top"]),
    ("t-shirt", ["t-shirt","tshirt","tee","kortärmad tröja","t shirt"]),
    ("jacka", ["jacka","jackor","coat","puffer","bomber","anorak","windbreaker"]),
    ("baggy", ["baggy","loose","oversized","wide"]),
    ("skinny", ["skinny","tight","slim","slimfit"]),
    ("träning", ["träning","tränings","sport","gym","athletic","track","training"]),
    ("mjukis", ["mjukis","mys","lounge","casual","soft","relax"]),
    ("utomhus", ["utomhus","outdoor","friluft","vandrings","hiking"]),
    ("luvtröja", ["luvtröja","hoodie med dragkedja","zip hoodie"]),
    ("svart", ["svart","svarta","black","dark","mörk"]),
    ("vit", ["vit","vita","white","offwhite","ljus"]),
    ("blå", ["blå","blåa","blue","navy","denim"]),
    ("grå", ["grå","gråa","gray","grey","ljusgrå"]),
    ("beige", ["beige","sand","cream","offwhite"]),
    ("röd", ["röd","röda","red","rosa"]),
    ("grön", ["grön","gröna","green","oliv","khaki"]),
    ("adidas", ["adidas","adidass","addiadas"]),
    ("nike", ["nike","nikE","nikke"]),
    ("levi", ["levi","levis","levi" ++ apos ++ "s"]),
    ("herr", ["herr","man","men","male"]),
    ("dam", ["dam","kvinna","women","female"]),
    ("unisex", ["unisex","både","alla"]),
    ("barn", ["barn","kids","junior","pojke","flicka","child","baby","youth"]) ]

/-- Model of `SYNONYMS.get(term, [])`. -/
def synGet (k : String) : List String := (SYNONYMS.lookup k).getD []

/-- main.py `text_contains_term(title, term)`: false for an empty term;
otherwise true when the lower-cased term, or any synonym listed under it,
occurs as a substring of the cleaned lower-cased title.  The comment in the
source about token matching is not implemented there: the function ends in
`return False`. -/
def text_contains_term (title term : String) : Bool :=
  if term = "" then false
  else
    let t := lowerS (cleanText title)
    let tm := lowerS term
    if isSubS tm t then true
    else (synGet tm).any (fun a => isSubS a t)

/-! ## Size handling (main.py) -/

/-- main.py `waist_to_text_size` on an integer waist (the `int()` coercion
of the source cannot fail on the integers it receives). -/
def waist_to_text_size (w : ℤ) : String :=
  if w ≤ 28 then "XS"
  else if w ≤ 30 then "S"
  else if w ≤ 32 then "M"
  else if w ≤ 34 then "L"
  else if w ≤ 36 then "XL"
  else "XXL"

/-- Rank of a textual size in the order XS < S < M < L < XL < XXL. -/
def sizeRank (s : String) : ℕ :=
  if s = "XS" then 0
  else if s = "S" then 1
  else if s = "M" then 2
  else if s = "L" then 3
  else if s = "XL" then 4
  else 5

/-- One step of the scan for the child-size regex of
`is_kids_size_in_text`.  A maximal digit run starting at a word boundary
matches when it is `9X` (two digits, first `9`) or `1[0-7]X` (three digits)
and is followed by a word boundary; this is exactly the set of matches of
the source pattern. -/
def kidsNumAt (run rest : List Char) : Bool :=
  (match rest with | [] => true | c :: _ => !isWordC c) &&
  (match run with
   | [a, _] => a = '9'
   | [a, b, _] => a = '1' && ('0' ≤ b && b ≤ '7')
   | _ => false)

/-- Scan for a match of the child-size regex; `prevWord` tells whether the
previous character was a word character (for the leading boundary). -/
def kidsNumScan (prevWord : Bool) : List Char → Bool
  | [] => false
  | c :: t =>
    if isDigitC c && !prevWord then
      kidsNumAt (c :: t.takeWhile isDigitC) (t.dropWhile isDigitC) ||
        kidsNumScan true t
    else kidsNumScan (isWordC c) t

/-- main.py `is_kids_size_in_text`: true when the cleaned text contains a
standalone 90–179 number (the source regex covers 90–99 and 100–179) or
any of the kids vocabulary words. -/
def is_kids_size_in_text (text : String) : Bool :=
  if text = "" then false
  else
    let t := cleanText text
    if kidsNumScan false t.data then true
    else [("barn" : String), "kids", "junior", "pojke", "flicka", "baby"].any
      (fun k => isSubS k t)

/-! ## Price extraction (main.py `parse_price_from_html`)

The first source pattern matches a digit group (digits possibly mixed with
whitespace, dots and commas, starting and ending with a digit) followed by
optional whitespace and a currency marker `kr`, `:-` or `sek`
(case-insensitive), with a trailing word-boundary test.  The scanner below
reproduces the regex search order: group extent greedy (longest first),
whitespace greedy, markers tried in the written order, and the scan resumes
after the end of a match. -/

/-- Characters allowed inside the digit group of the currency pattern. -/
def classC (c : Char) : Bool := isDigitC c || isSpaceC c || c = '.' || c = ','

/-- Word-boundary test after a marker ending in a word character: the rest
must be empty or start with a non-word character. -/
def bdryAfterWord : List Char → Bool
  | [] => true
  | c :: _ => !isWordC c

/-- Try the three currency markers, in source order, at the head of the
list; returns the suffix after the marker on success.  After the letters of
`kr` and `sek` the boundary needs a non-word continuation; after the `-` of
`:-` the boundary needs a word-character continuation. -/
def matchMarker : List Char → Option (List Char)
  | c1 :: c2 :: r =>
    if charLower c1 = 'k' && charLower c2 = 'r' && bdryAfterWord r then
      some r
    else if c1 = ':' && c2 = '-' &&
        (match r with | [] => false | c :: _ => isWordC c) then
      some r
    else
      match c1 :: c2 :: r with
      | d1 :: d2 :: d3 :: r2 =>
        if charLower d1 = 's' && charLower d2 = 'e' && charLower d3 = 'k' &&
            bdryAfterWord r2 then some r2 else none
      | _ => none
  | _ => none

/-- Numeric value of the digits of the group (the source strips every
non-digit and parses the rest). -/
def numFromDigits (l : List Char) : ℕ :=
  (l.filter isDigitC).foldl (fun a c => a * 10 + (c.toNat - 48)) 0

/-- Greedy scan over the whitespace run after the digit group: try the
marker after `k+1` spaces first, then shorter space runs. -/
def trySpaces (rest1 : List Char) : ℕ → Option (List Char)
  | 0 => matchMarker rest1
  | k + 1 =>
    match matchMarker (rest1.drop (k + 1)) with
    | some r => some r
    | none => trySpaces rest1 k

/-- Greedy scan over the digit-group extent: `n` is the number of
characters taken from `tail` after the first digit `d0` (longest first).
The group must end in a digit. -/
def tryLens (d0 : Char) (tail : List Char) : ℕ → Option (ℕ × List Char)
  | 0 => none
  | n + 1 =>
    let lastOk := match tail.get? n with | some c => isDigitC c | none => false
    if lastOk then
      let rest1 := tail.drop (n + 1)
      match trySpaces rest1 (rest1.takeWhile isSpaceC).length with
      | some r => some (numFromDigits (d0 :: tail.take (n + 1)), r)
      | none => tryLens d0 tail n
    else tryLens d0 tail n

/-- Left-to-right scan of the whole text for currency-marked numbers, with
fuel (one unit per examined position is enough). -/
def scanCurrency : ℕ → List Char → List ℕ
  | 0, _ => []
  | _, [] => []
  | fuel + 1, c :: t =>
    if isDigitC c then
      match tryLens c t (t.takeWhile classC).length with
      | some (n, rest) => n :: scanCurrency fuel rest
      | none => scanCurrency fuel t
    else scanCurrency fuel t

/-- One step of the fallback scan: maximal digit runs of length 3–5 flanked
by word boundaries (the source pattern over standalone numbers). -/
def fallbackNums (prevWord : Bool) : List Char → List ℕ
  | [] => []
  | c :: t =>
    if isDigitC c && !prevWord then
      let run := c :: t.takeWhile isDigitC
      let rest := t.dropWhile isDigitC
      if (run.length = 3 || run.length = 4 || run.length = 5) &&
          (match rest with | [] => true | d :: _ => !isWordC d) then
        numFromDigits run :: fallbackNums true t
      else fallbackNums true t
    else fallbackNums (isWordC c) t

/-- Minimum of a list of naturals (`min(nums)` over a non-empty list). -/
def minList : List ℕ → Option ℕ
  | [] => none
  | h :: t => some (t.foldl min h)

/-- main.py `parse_price_from_html`: clean the text, collect
currency-marked numbers and return their minimum; otherwise fall back to
standalone 3–5 digit numbers; otherwise `None`.  Total, hence the source
promise that it never raises. -/
def parse_price_from_html (s : String) : Option ℕ :=
  if s = "" then none
  else
    let text := (cleanText s).data
    match minList (scanCurrency (text.length + 1) text) with
    | some m => some m
    | none => minList (fallbackNums false text)

/-! ## Scoring (main.py)

Weights from the `WEIGHTS` table: item 30, brand 20, style 15, gender 10,
kids 15, color 5, size 10, price 10.  They are inlined below as exact
rationals.  Python `round(x, 2)` is modelled as round-half-to-even on exact
rationals. -/

/-- Round a rational to the nearest integer, ties to even (the behaviour of
Python `round` on exact values). -/
def rndHE (x : ℚ) : ℤ :=
  let m : ℤ := ⌊x + 1/2⌋
  if x + 1/2 = (m : ℚ) ∧ m % 2 ≠ 0 then m - 1 else m

/-- Model of `round(x, 2)`. -/
def round2 (x : ℚ) : ℚ := (rndHE (x * 100) : ℚ) / 100

/-- main.py `compute_price_score`.  `price_max` and `page_price` are
optional rationals (a present but unparseable `price_max` behaves like an
absent one in the source and is modelled as `none`).  A zero `price_max`
with a larger page price divides by zero in the source; that path is the
`Except.error` case. -/
def compute_price_score (page_price price_max : Option ℚ) :
    Except Unit ℚ :=
  match price_max with
  | none => .ok 0
  | some pm =>
    match page_price with
    | none => .ok 0
    | some p =>
      if p ≤ pm then .ok 10
      else if pm = 0 then .error ()
      else .ok (max 0 (round2 (10 * max 0 (1 - (p - pm) / pm))))

/-! ## Data model -/

/-- Jeans size information attached by the enricher (`_jeans`). -/
structure JeansSize where
  waist : ℤ
  len : Option ℤ
deriving DecidableEq

/-- An enriched candidate listing as consumed by `score_product`:
`fullText` models `_full_text` (with a missing key as the empty string, so
the `or`-fallback to the title matches the source), `pagePrice` models
`_page_price`, `jeans` models `_jeans` and `inferredTextSize` models
`_inferred_text_size`. -/
structure Listing where
  site : String
  title : String
  url : String
  fullText : String
  pagePrice : Option ℚ
  jeans : Option JeansSize
  inferredTextSize : Option String
deriving DecidableEq

/-- The filter set built by the route.  `kids` is already the tri-state
boolean produced by `parse_boolean_input` (on a boolean or `None` the
second call inside `score_product` is the identity). -/
structure Filters where
  brand : Option String
  item : Option String
  color : Option String
  style : Option String
  size : Option String
  gender : Option String
  kids : Option Bool
  price_max : Option ℚ
deriving DecidableEq

/-- A value stored in the diagnostic breakdown dict. -/
inductive BVal where
  | b (x : Bool)
  | s (x : String)
  | q (x : ℚ)
  | nil
deriving DecidableEq

/-- The breakdown dict, as an insertion-ordered association list; every key
is written at most once on each path of the source. -/
abbrev Breakdown := List (String × BVal)

/-- Lookup of a breakdown key. -/
def bdGet (bd : Breakdown) (k : String) : Option BVal := List.lookup k bd

/-- Result of one scoring stage: either an early `return` of the source
(`done`) or the updated accumulator (`cont`). -/
inductive StageRes where
  | done (r : ℚ × Breakdown)
  | cont (score : ℚ) (bd : Breakdown)
deriving DecidableEq

/-- The effective full text of a candidate:
`prod.get("_full_text") or prod.get("title","")`. -/
def effText (p : Listing) : String :=
  if p.fullText = "" then p.title else p.fullText

/-- Item stage (main.py lines 417–428): hard veto `item_mismatch` when the
term and all its synonyms are absent, `+30` otherwise. -/
def itemStage (t : String) (f : Filters) : StageRes :=
  let item := stripS (f.item.getD "")
  if item = "" then .cont 0 [("item_match", .b false)]
  else
    let m := text_contains_term t item
    if m then .cont 30 [("item_match", .b true)]
    else .done (0, [("item_match", .b false), ("veto", .s "item_mismatch")])

/-- Brand stage: soft `+20`. -/
def brandStage (t : String) (f : Filters) (sc : ℚ) (bd : Breakdown) :
    ℚ × Breakdown :=
  let brand := stripS (f.brand.getD "")
  if brand = "" then (sc, bd ++ [("brand_match", .b false)])
  else
    let m := text_contains_term t brand
    (if m then sc + 20 else sc, bd ++ [("brand_match", .b m)])

/-- Style stage: soft `+15`. -/
def styleStage (t : String) (f : Filters) (sc : ℚ) (bd : Breakdown) :
    ℚ × Breakdown :=
  let style := stripS (f.style.getD "")
  if style = "" then (sc, bd ++ [("style_match", .b false)])
  else
    let m := text_contains_term t style
    (if m then sc + 15 else sc, bd ++ [("style_match", .b m)])

/-- Gender inferred from the text and the inferred text size (main.py
lines 452–459). -/
def inferredGender (t : String) (p : Listing) : Option String :=
  if (synGet "herr").any (fun k => isSubS k t) then some "herr"
  else if (synGet "dam").any (fun k => isSubS k t) then some "dam"
  else if p.inferredTextSize.getD "" ≠ "" then some "herr/dam"
  else none

/-- Gender stage (main.py lines 451–475): conditional veto
`gender_mismatch`; `+10` on an explicit match, `+5` on the weak
adult-inferred signal. -/
def genderStage (t : String) (p : Listing) (f : Filters) (sc : ℚ)
    (bd : Breakdown) : StageRes :=
  let gender := lowerS (stripS (f.gender.getD ""))
  let ig := inferredGender t p
  let bd1 := bd ++ [("inferred_gender", match ig with
    | some g => .s g
    | none => .nil)]
  if gender = "" then .cont sc bd1
  else
    if ig ≠ none ∧ ig ≠ some gender ∧ ig ≠ some "herr/dam" then
      .done (0, bd1 ++ [("veto", .s "gender_mismatch")])
    else if text_contains_term t gender then
      .cont (sc + 10) (bd1 ++ [("gender_match", .b true)])
    else if ig = some "herr/dam" then
      .cont (sc + 5) (bd1 ++ [("gender_match", .s "inferred_partial")])
    else .cont sc (bd1 ++ [("gender_match", .b false)])

/-- The kid detection of the kids stage (main.py line 479). -/
def kidDetected (t : String) : Bool :=
  is_kids_size_in_text t || (isSubS "barn" t || isSubS "kids" t ||
    isSubS "junior" t)

/-- Kids stage (main.py lines 477–492): hard vetoes
`expected_kids_but_not_kid` and `expected_adult_but_is_kid`; `+15` when a
requested kids item is detected, `+7.5` in the adult case. -/
def kidsStage (t : String) (f : Filters) (sc : ℚ) (bd : Breakdown) :
    StageRes :=
  let isKid := kidDetected t
  let bd1 := bd ++ [("is_kid_detected", .b isKid)]
  match f.kids with
  | some true =>
    if isKid then .cont (sc + 15) bd1
    else .done (0, bd1 ++ [("veto", .s "expected_kids_but_not_kid")])
  | some false =>
    if isKid then .done (0, bd1 ++ [("veto", .s "expected_adult_but_is_kid")])
    else .cont (sc + 15/2) bd1
  | none => .cont sc bd1

/-- Color stage: soft `+5`; no breakdown entry when the color filter is
unset. -/
def colorStage (t : String) (f : Filters) (sc : ℚ) (bd : Breakdown) :
    ℚ × Breakdown :=
  let color := stripS (f.color.getD "")
  if color = "" then (sc, bd)
  else if text_contains_term t color then
    (sc + 5, bd ++ [("color_match", .b true)])
  else (sc, bd ++ [("color_match", .b false)])

/-- Size stage (main.py lines 504–536).  The last branch of the source
iterates over `SIZE_MAP`, a name that is never defined in main.py, so that
branch raises `NameError`; it is reached exactly when a size filter is set
and none of the earlier size checks matched. -/
def sizeStage (t : String) (p : Listing) (f : Filters) (sc : ℚ)
    (bd : Breakdown) : Except Unit (ℚ × Breakdown) :=
  let sf := stripS (f.size.getD "")
  if sf = "" then .ok (sc, bd ++ [("size_matched", .b false)])
  else
    let its := p.inferredTextSize.getD ""
    if its ≠ "" ∧ lowerS its = lowerS sf then
      .ok (sc + 10, bd ++ [("size_matched", .b true)])
    else
      let jeansM : Bool := match p.jeans with
        | some j => !(j.waist = 0) && (lowerS (waist_to_text_size j.waist) = lowerS sf)
        | none => false
      let digitM : Bool := isDigitStr sf && isSubS sf t
      if jeansM || digitM then .ok (sc + 10, bd ++ [("size_matched", .b true)])
      else .error ()

/-- main.py `score_product`: the staged pipeline above, then the flat URL
and title bonuses, the price points and the clamped rounded total.  The
error case models the `NameError`/`ZeroDivisionError` paths of the
source. -/
def score_product (p : Listing) (f : Filters) :
    Except Unit (ℚ × Breakdown) :=
  let t := lowerS (effText p)
  match itemStage t f with
  | .done r => .ok r
  | .cont s1 bd1 =>
    let r2 := brandStage t f s1 bd1
    let r3 := styleStage t f r2.1 r2.2
    match genderStage t p f r3.1 r3.2 with
    | .done r => .ok r
    | .cont s4 bd4 =>
      match kidsStage t f s4 bd4 with
      | .done r => .ok r
      | .cont s5 bd5 =>
        let r6 := colorStage t f s5 bd5
        match sizeStage t p f r6.1 r6.2 with
        | .error e => .error e
        | .ok (s7, bd7) =>
          let s8 := s7 + (if p.url ≠ "" then 1 else 0) +
            (if p.title ≠ "" then 1 else 0)
          match compute_price_score p.pagePrice f.price_max with
          | .error e => .error e
          | .ok pricePts =>
            let bd8 := bd7 ++ [("price_points", .q pricePts)]
            let final := max 0 (min 100 (round2 (s8 + pricePts)))
            .ok (final, bd8 ++ [("final", .q final)])

/-- Rating of a scoring result, when the source returned normally. -/
def ratingOf (r : Except Unit (ℚ × Breakdown)) : Option ℚ :=
  match r with
  | .ok (s, _) => some s
  | .error _ => none

/-- Veto reason of a scoring result, when the source returned normally. -/
def vetoOf (r : Except Unit (ℚ × Breakdown)) : Option BVal :=
  match r with
  | .ok (_, bd) => bdGet bd "veto"
  | .error _ => none

/-! ## Orchestrator pipeline (main.py `find_best_across_sites`, lines 575–635)

Network fetching and thread scheduling are not modelled; the pipeline below
is the pure part of the orchestrator: the merged candidate collection (the
scrapers' results are concatenated — the source has no cross-site
deduplication step), per-candidate scoring with exception recovery, the
`s > 0` filter, the stable sort by `(-rating, price)` and the `top_n`
truncation.  Enrichment maps each candidate to one enriched candidate and
never merges or drops entries, so the pipeline takes the enriched
candidates as input. -/

/-- Exception recovery around `score_product` (main.py lines 607–610): a
raising candidate scores `0` with breakdown `{"final": 0}`. -/
def scoreSafe (p : Listing) (f : Filters) : ℚ × Breakdown :=
  match score_product p f with
  | .ok r => r
  | .error _ => (0, [("final", .q 0)])

/-- A scored candidate: the listing plus `_rating`, `_breakdown` and the
tie-break `_price_norm` (the float coercion of `_page_price`, identity
here). -/
structure ScoredP where
  prod : Listing
  rating : ℚ
  bd : Breakdown
  priceNorm : Option ℚ
deriving DecidableEq

/-- Attach rating, breakdown and normalized price to a candidate. -/
def attachScore (f : Filters) (p : Listing) : ScoredP :=
  let r := scoreSafe p f
  ⟨p, r.1, r.2, p.pagePrice⟩

/-- Model of `price_sort`: an absent price behaves like positive infinity, so it
compares greater-or-equal against every price.  `priceNormLe a b` is the
Python `a <= b` under that convention. -/
def priceNormLe : Option ℚ → Option ℚ → Bool
  | _, none => true
  | none, some _ => false
  | some a, some b => a ≤ b

/-- Ascending comparison on the sort key `(-rating, price_sort)`. -/
def keyLe (x y : ScoredP) : Bool :=
  if x.rating = y.rating then priceNormLe x.priceNorm y.priceNorm
  else decide (y.rating < x.rating)

/-- Stable insertion of an element after every already-placed element
whose key is less than or equal (the placement a stable ascending sort
gives to a later element). -/
def insertK (x : ScoredP) : List ScoredP → List ScoredP
  | [] => [x]
  | h :: t => if keyLe h x then h :: insertK x t else x :: h :: t

/-- Stable ascending sort by `keyLe` (the effect of `list.sort(key=...)`). -/
def sortStable (l : List ScoredP) : List ScoredP :=
  l.foldl (fun acc x => insertK x acc) []

/-- Scoring stage of the orchestrator: score every enriched candidate and
keep those with positive rating (main.py lines 605–620). -/
def scoredOf (enriched : List Listing) (f : Filters) : List ScoredP :=
  (enriched.map (attachScore f)).filter (fun x => decide (0 < x.rating))

/-- Ranking stage of the orchestrator (main.py lines 605–635): filter,
sort by rating descending with price-ascending tie-break, truncate. -/
def findTop (enriched : List Listing) (f : Filters) (top_n : ℕ) :
    List ScoredP :=
  let scored := scoredOf enriched f
  if scored = [] then [] else (sortStable scored).take top_n

/-- Merged candidate collection of the orchestrator (main.py lines
575–590): the scrapers' lists are concatenated; no cross-site
deduplication is performed. -/
def mergeCandidates (results : List (List Listing)) : List Listing :=
  results.flatten

/-- HTTP status chosen by `find_item_route` (main.py lines 673–675): 404
with the no-results message when the ranked list is empty, 200 otherwise. -/
def route_status (top : List ScoredP) : ℕ := if top = [] then 404 else 200

/-- Number of entries of a candidate list carrying a given URL. -/
def countUrlL (l : List Listing) (u : String) : ℕ :=
  (l.filter (fun c => c.url = u)).length

/-- Number of entries of a ranked result list carrying a given URL. -/
def countUrlS (l : List ScoredP) (u : String) : ℕ :=
  (l.filter (fun c => c.prod.url = u)).length

/-! ## The simpler variant (src/app.py `/search`)

app.py collects candidates sequentially and, unlike main.py, deduplicates
them by URL before scoring (`unique = {}` keyed by url, first seen wins,
falsy urls skipped). -/

/-- A raw app.py candidate. -/
structure CandA where
  title : String
  price : Option ℤ
  url : String
  source : String
deriving DecidableEq

/-- Worker for app.py's URL deduplication: `seen` is the key set of the
`unique` dict. -/
def dedupeGo (seen : List String) : List CandA → List CandA
  | [] => []
  | c :: t =>
    if c.url = "" then dedupeGo seen t
    else if c.url ∈ seen then dedupeGo seen t
    else c :: dedupeGo (c.url :: seen) t

/-- app.py `/search` deduplication by URL (lines 289–296): first-seen
candidate kept per URL, candidates without a URL dropped. -/
def dedupe_by_url (cs : List CandA) : List CandA := dedupeGo [] cs

/-- Number of entries of an app.py candidate list carrying a given URL. -/
def countUrlA (l : List CandA) (u : String) : ℕ :=
  (l.filter (fun c => c.url = u)).length

/-! ## Claims -/

/-- C9: `waist_to_text_size` is total over 20–50 (it is total on every
integer) and follows the threshold ladder ≤28→XS, ≤30→S, ≤32→M, ≤34→L,
≤36→XL, else XXL; in particular 28→XS, 30→S, 32→M, 34→L, 36→XL, 40→XXL;
and it is monotone with respect to the size order XS<S<M<L<XL<XXL. -/
theorem c9_waist_ladder :
    (∀ w : ℤ, (w ≤ 28 → waist_to_text_size w = "XS") ∧
      (28 < w → w ≤ 30 → waist_to_text_size w = "S") ∧
      (30 < w → w ≤ 32 → waist_to_text_size w = "M") ∧
      (32 < w → w ≤ 34 → waist_to_text_size w = "L") ∧
      (34 < w → w ≤ 36 → waist_to_text_size w = "XL") ∧
      (36 < w → waist_to_text_size w = "XXL")) ∧
    waist_to_text_size 28 = "XS" ∧ waist_to_text_size 30 = "S" ∧
    waist_to_text_size 32 = "M" ∧ waist_to_text_size 34 = "L" ∧
    waist_to_text_size 36 = "XL" ∧ waist_to_text_size 40 = "XXL" ∧
    (∀ w1 w2 : ℤ, 20 ≤ w1 → w1 ≤ w2 → w2 ≤ 50 →
      sizeRank (waist_to_text_size w1) ≤ sizeRank (waist_to_text_size w2)) := by
  refine ⟨fun w => ?_, by decide, by decide, by decide, by decide, by decide,
    by decide, fun w1 w2 h1 h12 h2 => ?_⟩
  · unfold waist_to_text_size
    refine ⟨fun h => ?_, fun h h2 => ?_, fun h h2 => ?_, fun h h2 => ?_,
      fun h h2 => ?_, fun h => ?_⟩ <;> split_ifs <;> first | rfl | omega
  · unfold waist_to_text_size
    split_ifs <;> simp [sizeRank] <;> omega

/-- C9 witness: the ladder and monotonicity at concrete waists. -/
theorem c9_waist_ladder_witness :
    waist_to_text_size 25 = "XS" ∧
    sizeRank (waist_to_text_size 25) ≤ sizeRank (waist_to_text_size 40) := by
  exact ⟨(c9_waist_ladder.1 25).1 (by decide),
    c9_waist_ladder.2.2.2.2.2.2.2 25 40 (by decide) (by decide) (by decide)⟩

/-- Evaluation shape of `text_contains_term` for a nonempty term: a match
is a literal occurrence of the lower-cased term or an occurrence of one of
the synonyms listed under that term as a key. -/
theorem tct_eq (text term : String) (h : ¬ term = "") :
    text_contains_term text term =
      (isSubS (lowerS term) (lowerS (cleanText text)) ||
       (synGet (lowerS term)).any
         (fun a => isSubS a (lowerS (cleanText text)))) := by
  unfold text_contains_term
  rw [if_neg h]
  dsimp only
  split
  · next hc => simp [hc]
  · next hc => simp [Bool.not_eq_true] at hc; simp [hc]

/-- C5 counterexample: the filter term "denim" does not match a text
containing "jeans", although "denim" is listed as a synonym under the
canonical key "jeans" — the claimed reverse direction does not hold. -/
theorem c5_counterexample :
    text_contains_term "snygga jeans" "denim" = false := by decide

/-- C5 (amended): synonym matching is one-directional.  A term matches if
the term itself or one of the synonyms listed under the term occurs in the
text; a term that only appears as a synonym of some canonical key (such as
"denim" under "jeans") matches only through its literal occurrence, never
through the key or the key's other surface forms.  The forward direction
works: filter "jeans" matches a text containing "denim". -/
theorem c5_unidirectional :
    (∀ text : String, text_contains_term text "denim" = true →
      isSubS "denim" (lowerS (cleanText text)) = true) ∧
    text_contains_term "mörkblå denim" "jeans" = true := by
  constructor
  · intro text h
    rw [tct_eq _ _ (by decide)] at h
    rw [(by decide : synGet (lowerS "denim") = [])] at h
    rw [(by decide : lowerS "denim" = "denim")] at h
    simpa using h
  · decide

/-- C5 witness: the amended theorem applied to a text that literally
contains "denim". -/
theorem c5_unidirectional_witness :
    isSubS "denim" (lowerS (cleanText "denim byxa")) = true :=
  c5_unidirectional.1 "denim byxa" (by decide)

/-- The currency scan finds nothing in digit-free text. -/
theorem scanCurrency_nil_of_no_digit (fuel : ℕ) :
    ∀ l : List Char, (∀ c ∈ l, isDigitC c = false) →
      scanCurrency fuel l = [] := by
  induction fuel with
  | zero => intro l _; cases l <;> rfl
  | succ n ih =>
    intro l h
    cases l with
    | nil => rfl
    | cons c t =>
      have hc : isDigitC c = false := h c (by simp)
      simp only [scanCurrency]
      rw [if_neg (by simp [hc])]
      exact ih t (fun d hd => h d (by simp [hd]))

/-- The standalone-number fallback finds nothing in digit-free text. -/
theorem fallbackNums_nil_of_no_digit :
    ∀ (l : List Char) (pw : Bool), (∀ c ∈ l, isDigitC c = false) →
      fallbackNums pw l = [] := by
  intro l
  induction l with
  | nil => intro pw _; rfl
  | cons c t ih =>
    intro pw h
    have hc : isDigitC c = false := h c (by simp)
    simp only [fallbackNums]
    rw [if_neg (by simp [hc])]
    exact ih _ (fun d hd => h d (by simp [hd]))

/-- Characters of the collapsed text are spaces or input characters. -/
theorem collapseWs_chars (b : Bool) :
    ∀ l : List Char, ∀ c ∈ collapseWs b l, c = ' ' ∨ c ∈ l := by
  intro l
  induction l generalizing b with
  | nil => intro c hc; cases hc
  | cons d t ih =>
    intro c hc
    simp only [collapseWs] at hc
    by_cases hd : isSpaceC d = true
    · rw [if_pos hd] at hc
      by_cases hb : b = true
      · rw [if_pos hb] at hc
        rcases ih true c hc with h | h
        · exact Or.inl h
        · exact Or.inr (by simp [h])
      · rw [if_neg hb] at hc
        rcases List.mem_cons.mp hc with h | h
        · exact Or.inl h
        · rcases ih true c h with h2 | h2
          · exact Or.inl h2
          · exact Or.inr (by simp [h2])
    · rw [if_neg hd] at hc
      rcases List.mem_cons.mp hc with h | h
      · exact Or.inr (by simp [h])
      · rcases ih false c h with h2 | h2
        · exact Or.inl h2
        · exact Or.inr (by simp [h2])

/-- Characters of the cleaned text are spaces or input characters. -/
theorem cleanTextL_chars (l : List Char) :
    ∀ c ∈ cleanTextL l, c = ' ' ∨ c ∈ l := by
  intro c hc
  unfold cleanTextL stripWsL at hc
  rw [List.mem_reverse] at hc
  have h1 := (List.dropWhile_sublist _).mem hc
  rw [List.mem_reverse] at h1
  have h2 := (List.dropWhile_sublist
    (fun c => isSpaceC c) (l := collapseWs false l)).mem h1
  exact collapseWs_chars false l c h2

/-- C6 counterexample: in "299:- 5000 kr" the claimed rule (minimum over
all numbers followed by a currency marker, `:-` included) gives 299, but
the source regex places a word boundary after `:-`, so `299:-` is not a
currency match when followed by a space, and the function returns 5000. -/
theorem c6_counterexample :
    parse_price_from_html "299:- 5000 kr" = some 5000 ∧
    parse_price_from_html "299:- 5000 kr" ≠ some 299 := by
  constructor
  · decide
  · decide

/-- C6 (amended): the extractor returns the minimum of the
currency-marked numbers, where a number followed by `kr` or `sek` counts
when the marker is followed by a non-word character or the end, but a
number followed by `:-` counts only when a word character follows the `-`
(an artifact of the trailing word boundary of the source regex); with no
currency match it returns the minimum standalone 3–5 digit number, and
absent when the text has no digits; it never raises.  The documented
examples hold: 1299 for "1 299 kr", 299 for "299:-" (via the standalone
fallback), 450 for "450 SEK". -/
theorem c6_price_extractor :
    parse_price_from_html "1 299 kr" = some 1299 ∧
    parse_price_from_html "299:-" = some 299 ∧
    parse_price_from_html "450 SEK" = some 450 ∧
    parse_price_from_html "299:-5000 kr" = some 299 ∧
    (∀ s : String, (∀ c ∈ s.data, isDigitC c = false) →
      parse_price_from_html s = none) := by
  refine ⟨by decide, by decide, by decide, by decide, fun s h => ?_⟩
  unfold parse_price_from_html
  by_cases he : s = ""
  · rw [if_pos he]
  · rw [if_neg he]
    have hall : ∀ c ∈ (cleanText s).data, isDigitC c = false := by
      intro c hc
      rcases cleanTextL_chars s.data c hc with h1 | h1
      · rw [h1]; rfl
      · exact h c h1
    dsimp only
    rw [scanCurrency_nil_of_no_digit _ _ hall,
      fallbackNums_nil_of_no_digit _ _ hall]
    rfl

/-- C6 witness: the amended theorem applied to a digit-free text. -/
theorem c6_price_extractor_witness :
    parse_price_from_html "inga siffror har" = none :=
  c6_price_extractor.2.2.2.2 "inga siffror har" (by decide)

/-- Upper bound of round-half-even: at most one half above. -/
theorem rndHE_le (x : ℚ) : (rndHE x : ℚ) ≤ x + 1/2 := by
  unfold rndHE
  dsimp only
  split
  · next h =>
    push_cast
    have := Int.floor_le (x + 1/2)
    linarith
  · next =>
    exact Int.floor_le (x + 1/2)

/-- Lower bound of round-half-even: at most one half below. -/
theorem le_rndHE (x : ℚ) : x - 1/2 ≤ (rndHE x : ℚ) := by
  unfold rndHE
  dsimp only
  split
  · next h =>
    push_cast
    linarith [h.1]
  · next =>
    have := Int.lt_floor_add_one (x + 1/2)
    linarith

/-- Round-half-even is monotone. -/
theorem rndHE_mono {x y : ℚ} (h : x ≤ y) : rndHE x ≤ rndHE y := by
  by_contra hc
  push_neg at hc
  have h1 : (rndHE y : ℚ) + 1 ≤ (rndHE x : ℚ) := by
    exact_mod_cast Int.add_one_le_iff.mpr hc
  have h2 := rndHE_le x
  have h3 := le_rndHE y
  have hxy : x = y := le_antisymm h (by linarith)
  rw [hxy] at hc
  exact lt_irrefl _ hc

/-- Two-decimal rounding is monotone. -/
theorem round2_mono {x y : ℚ} (h : x ≤ y) : round2 x ≤ round2 y := by
  unfold round2
  have h1 : rndHE (x * 100) ≤ rndHE (y * 100) :=
    rndHE_mono (by linarith)
  have h2 : (rndHE (x * 100) : ℚ) ≤ (rndHE (y * 100) : ℚ) := by
    exact_mod_cast h1
  linarith

/-- C8 counterexample: with `price_max = 10000`, page prices 10001 and
10002 both receive the full price weight 10 because the source rounds the
scaled-down score to two decimals — refuting both the claimed
"full weight if and only if `page_price <= price_max`" and the claimed
strict decrease between `price_max` and `2 × price_max`. -/
theorem c8_counterexample :
    compute_price_score (some 10001) (some 10000) = .ok 10 ∧
    compute_price_score (some 10002) (some 10000) = .ok 10 ∧
    ¬ ((10001 : ℚ) ≤ 10000) ∧ (10001 : ℚ) < 10002 := by
  refine ⟨by decide, by decide, by decide, by decide⟩

/-- C8 (amended): with a positive `price_max` and a page price present,
the price component is the full weight 10 when `page_price ≤ price_max`;
otherwise it is `round2 (10 × max 0 (1 − (price − max)/max))` (clamped at
0), which is 0 whenever `page_price ≥ 2 × price_max`, and the component is
weakly decreasing in the page price (strictness and the only-if direction
of the full-weight rule fail because of the two-decimal rounding); with
`price_max = 500` the component at page price 1000 (zero) is strictly
below the component at 450 (full weight). -/
theorem c8_price_score :
    (∀ p pm : ℚ, 0 < pm →
      (p ≤ pm → compute_price_score (some p) (some pm) = .ok 10) ∧
      (pm < p → compute_price_score (some p) (some pm) =
        .ok (max 0 (round2 (10 * max 0 (1 - (p - pm) / pm))))) ∧
      (2 * pm ≤ p → compute_price_score (some p) (some pm) = .ok 0) ∧
      (∀ p2 v v2, p ≤ p2 →
        compute_price_score (some p) (some pm) = .ok v →
        compute_price_score (some p2) (some pm) = .ok v2 →
        v2 ≤ v)) ∧
    compute_price_score (some 450) (some 500) = .ok 10 ∧
    compute_price_score (some 1000) (some 500) = .ok 0 ∧
    (0 : ℚ) < 10 := by
  have hval : ∀ p pm : ℚ, 0 < pm → pm < p →
      compute_price_score (some p) (some pm) =
        .ok (max 0 (round2 (10 * max 0 (1 - (p - pm) / pm)))) := by
    intro p pm hpm hlt
    simp only [compute_price_score]
    rw [if_neg (not_le.mpr hlt), if_neg (by linarith)]
  have hle : ∀ p pm : ℚ, p ≤ pm →
      compute_price_score (some p) (some pm) = .ok 10 := by
    intro p pm hple
    simp only [compute_price_score]
    rw [if_pos hple]
  have hcap : ∀ p pm : ℚ, 0 < pm → pm < p →
      max 0 (round2 (10 * max 0 (1 - (p - pm) / pm))) ≤ 10 := by
    intro p pm hpm hlt
    have h0 : (1 : ℚ) - (p - pm) / pm ≤ 1 := by
      have : 0 ≤ (p - pm) / pm := div_nonneg (by linarith) (le_of_lt hpm)
      linarith
    have h1 : max 0 (1 - (p - pm) / pm) ≤ 1 := by
      exact max_le (by norm_num) h0
    have h2 : (10 : ℚ) * max 0 (1 - (p - pm) / pm) ≤ 10 := by linarith
    have h3 : round2 (10 * max 0 (1 - (p - pm) / pm)) ≤ round2 10 :=
      round2_mono h2
    have h4 : round2 (10 : ℚ) = 10 := by decide
    exact max_le (by norm_num) (by linarith)
  refine ⟨fun p pm hpm => ⟨hle p pm, hval p pm hpm, ?_, ?_⟩,
    by decide, by decide, by decide⟩
  · intro h2pm
    have hlt : pm < p := by linarith
    rw [hval p pm hpm hlt]
    have hz : (1 : ℚ) - (p - pm) / pm ≤ 0 := by
      rw [sub_nonpos, le_div_iff₀ hpm]
      linarith
    have hm : max 0 (1 - (p - pm) / pm) = 0 := max_eq_left hz
    rw [hm]
    decide
  · intro p2 v v2 hp12 hv hv2
    by_cases h1 : p ≤ pm
    · rw [hle p pm h1] at hv
      by_cases h2 : p2 ≤ pm
      · rw [hle p2 pm h2] at hv2
        simp only [Except.ok.injEq] at hv hv2
        rw [← hv, ← hv2]
      · push_neg at h2
        rw [hval p2 pm hpm h2] at hv2
        simp only [Except.ok.injEq] at hv hv2
        rw [← hv, ← hv2]
        exact hcap p2 pm hpm h2
    · push_neg at h1
      have h2 : pm < p2 := by linarith
      rw [hval p pm hpm h1] at hv
      rw [hval p2 pm hpm h2] at hv2
      simp only [Except.ok.injEq] at hv hv2
      rw [← hv, ← hv2]
      have hr : (1 : ℚ) - (p2 - pm) / pm ≤ 1 - (p - pm) / pm := by
        have hdd : (p - pm) / pm ≤ (p2 - pm) / pm := by
          rw [div_le_div_iff₀ hpm hpm]
          nlinarith
        linarith
      have hmax : max 0 (1 - (p2 - pm) / pm) ≤ max 0 (1 - (p - pm) / pm) :=
        max_le_max (le_refl 0) hr
      have hmul : (10 : ℚ) * max 0 (1 - (p2 - pm) / pm) ≤
          10 * max 0 (1 - (p - pm) / pm) := by linarith
      exact max_le_max (le_refl 0) (round2_mono hmul)

/-- C8 witness: the amended theorem applied at `price_max = 500` with
page prices 450 (full weight), 600 and 1200 (zero). -/
theorem c8_price_score_witness :
    compute_price_score (some 450) (some 500) = .ok 10 ∧
    compute_price_score (some 1200) (some 500) = .ok 0 := by
  exact ⟨((c8_price_score.1 450 500 (by norm_num)).1 (by norm_num)),
    ((c8_price_score.1 1200 500 (by norm_num)).2.2.1 (by norm_num))⟩

/-- Filter set with only the item filter present. -/
def onlyItemF (i : String) : Filters :=
  ⟨none, some i, none, none, none, none, none, none⟩

/-- Filter set with only the kids filter present. -/
def onlyKidsF (b : Bool) : Filters :=
  ⟨none, none, none, none, none, none, some b, none⟩

/-- C3 counterexample: for `filters.item = "zip hoodie"` and a candidate
whose full text contains the word-token "hoodie" (but not the phrase and
no synonym listed under "zip hoodie", which is not a canonical key), the
claim predicts the item weight to be added; the source instead vetoes —
and the veto reason it records is "item_mismatch", not the claimed
"item_missing". -/
theorem c3_counterexample :
    score_product ⟨"s", "t", "u", "hoodie säljes", none, none, none⟩
      (onlyItemF "zip hoodie") =
      .ok (0, [("item_match", .b false), ("veto", .s "item_mismatch")]) ∧
    vetoOf (score_product ⟨"s", "t", "u", "x", none, none, none⟩
      (onlyItemF "jeans")) ≠ some (.s "item_missing") := by
  exact ⟨by decide, by decide⟩

/-- C3 (amended): if `filters.item` is set (nonempty after strip) and
neither the term nor any synonym listed under it occurs as a substring of
the candidate's text, `score_product` returns rating 0 with breakdown
`{item_match: false, veto: "item_mismatch"}` — word-tokens of the term
are not checked.  When the term does match and no other filter is set,
no veto is recorded, `item_match` is true, and the item weight 30 is added
(the rating is 30 plus the flat URL and title bonuses). -/
theorem c3_item_veto :
    (∀ (p : Listing) (f : Filters), ¬ stripS (f.item.getD "") = "" →
      text_contains_term (lowerS (effText p)) (stripS (f.item.getD "")) = false →
      score_product p f =
        .ok (0, [("item_match", .b false), ("veto", .s "item_mismatch")])) ∧
    (∀ (p : Listing) (i : String), ¬ stripS i = "" →
      text_contains_term (lowerS (effText p)) (stripS i) = true →
      ratingOf (score_product p (onlyItemF i)) =
        some (30 + (if p.url ≠ "" then (1 : ℚ) else 0) +
          (if p.title ≠ "" then 1 else 0)) ∧
      vetoOf (score_product p (onlyItemF i)) = none ∧
      (∃ bd, score_product p (onlyItemF i) = .ok ((30 : ℚ) +
          (if p.url ≠ "" then 1 else 0) + (if p.title ≠ "" then 1 else 0), bd) ∧
        bdGet bd "item_match" = some (.b true))) := by
  constructor
  · intro p f hne hmiss
    unfold score_product itemStage
    dsimp only
    rw [if_neg hne, hmiss]
    rfl
  · intro p i hne hmatch
    have hitem : itemStage (lowerS (effText p)) (onlyItemF i) =
        .cont 30 [("item_match", .b true)] := by
      have hg : (some i).getD "" = i := rfl
      unfold itemStage onlyItemF
      dsimp only
      rw [hg, if_neg hne, if_pos hmatch]
    have hrun : score_product p (onlyItemF i) =
        .ok (max 0 (min 100 (round2 ((30 +
            (if p.url ≠ "" then (1 : ℚ) else 0) +
            (if p.title ≠ "" then 1 else 0)) + 0))),
          [("item_match", .b true), ("brand_match", .b false),
           ("style_match", .b false),
           ("inferred_gender",
             match inferredGender (lowerS (effText p)) p with
             | some g => .s g
             | none => .nil),
           ("is_kid_detected", .b (kidDetected (lowerS (effText p)))),
           ("size_matched", .b false), ("price_points", .q 0),
           ("final", .q (max 0 (min 100 (round2 ((30 +
             (if p.url ≠ "" then (1 : ℚ) else 0) +
             (if p.title ≠ "" then 1 else 0)) + 0)))))]) := by
      unfold score_product
      dsimp only
      rw [hitem]
      rfl
    have hb : max 0 (min 100 (round2 ((30 +
        (if p.url ≠ "" then (1 : ℚ) else 0) +
        (if p.title ≠ "" then 1 else 0)) + 0))) =
        30 + (if p.url ≠ "" then (1 : ℚ) else 0) +
          (if p.title ≠ "" then 1 else 0) := by
      split_ifs <;> decide
    rw [hb] at hrun
    refine ⟨by rw [hrun]; rfl, by rw [hrun]; rfl, ⟨_, hrun, rfl⟩⟩

/-- C3 witness: the amended theorem applied to a missing item
("jeans" against an unrelated text) and to a matching item. -/
theorem c3_item_veto_witness :
    score_product ⟨"s", "t", "u", "bara en bok", none, none, none⟩
      (onlyItemF "jeans") =
      .ok (0, [("item_match", .b false), ("veto", .s "item_mismatch")]) ∧
    ratingOf (score_product ⟨"s", "t", "u", "fina jeans", none, none, none⟩
      (onlyItemF "jeans")) = some 32 := by
  constructor
  · exact c3_item_veto.1 ⟨"s", "t", "u", "bara en bok", none, none, none⟩
      (onlyItemF "jeans") (by decide) (by decide)
  · have h := (c3_item_veto.2 ⟨"s", "t", "u", "fina jeans", none, none, none⟩
      "jeans" (by decide) (by decide)).1
    rw [h]
    decide

/-- C4 counterexample: (1) a candidate with no kids signals under
`kids=true` is vetoed with reason "expected_kids_but_not_kid", not the
claimed "expected_child_but_not_detected"; (2) a candidate whose text
contains the token 175 — outside the claimed 90–170 range and with no
kids vocabulary — is NOT vetoed under `kids=true` (the source range is
90–179), contradicting the claimed veto; (3) the adult-side veto string
is "expected_adult_but_is_kid", not "expected_adult_but_child_detected". -/
theorem c4_counterexample :
    vetoOf (score_product ⟨"s", "t", "u", "snygg hoodie herr", none, none, none⟩
      ⟨none, some "hoodie", none, none, none, none, some true, none⟩) =
      some (.s "expected_kids_but_not_kid") ∧
    ratingOf (score_product ⟨"s", "t", "u", "hoodie strl 175", none, none, none⟩
      ⟨none, some "hoodie", none, none, none, none, some true, none⟩) =
      some 47 ∧
    vetoOf (score_product ⟨"s", "t", "u", "barnjeans", none, none, none⟩
      (onlyKidsF false)) = some (.s "expected_adult_but_is_kid") := by
  exact ⟨by decide, by decide, by decide⟩

/-- C4 (amended): when only the kids filter is set (an unmatched item or a
contradicting gender filter vetoes earlier with its own reason), the kids
stage behaves as claimed but with the source's veto strings and detection
range: with `kids=true` and no kid detected (standalone 90–179 number —
not 90–170 — or kids vocabulary), rating 0 with veto
"expected_kids_but_not_kid"; with `kids=true` and a kid detected, the kids
weight 15 is added; with `kids=false` and a kid detected, rating 0 with
veto "expected_adult_but_is_kid"; with `kids=false` and no kid detected,
half the kids weight (7.5) is added. -/
theorem c4_kids_veto :
    (∀ p : Listing, kidDetected (lowerS (effText p)) = false →
      ratingOf (score_product p (onlyKidsF true)) = some 0 ∧
      vetoOf (score_product p (onlyKidsF true)) =
        some (.s "expected_kids_but_not_kid")) ∧
    (∀ p : Listing, kidDetected (lowerS (effText p)) = true →
      ratingOf (score_product p (onlyKidsF true)) =
        some (15 + (if p.url ≠ "" then (1 : ℚ) else 0) +
          (if p.title ≠ "" then 1 else 0)) ∧
      vetoOf (score_product p (onlyKidsF true)) = none) ∧
    (∀ p : Listing, kidDetected (lowerS (effText p)) = true →
      ratingOf (score_product p (onlyKidsF false)) = some 0 ∧
      vetoOf (score_product p (onlyKidsF false)) =
        some (.s "expected_adult_but_is_kid")) ∧
    (∀ p : Listing, kidDetected (lowerS (effText p)) = false →
      ratingOf (score_product p (onlyKidsF false)) =
        some (15/2 + (if p.url ≠ "" then (1 : ℚ) else 0) +
          (if p.title ≠ "" then 1 else 0)) ∧
      vetoOf (score_product p (onlyKidsF false)) = none) ∧
    is_kids_size_in_text "strl 175" = true ∧
    is_kids_size_in_text "strl 185" = false := by
  refine ⟨fun p hkid => ?_, fun p hkid => ?_, fun p hkid => ?_,
    fun p hkid => ?_, by decide, by decide⟩
  · constructor
    · simp only [score_product, itemStage, brandStage, styleStage,
        genderStage, kidsStage, colorStage, sizeStage, compute_price_score,
        onlyKidsF, Option.getD, hkid, reduceIte]
      rfl
    · simp only [score_product, itemStage, brandStage, styleStage,
        genderStage, kidsStage, colorStage, sizeStage, compute_price_score,
        onlyKidsF, Option.getD, hkid, reduceIte]
      rfl
  · constructor
    · simp only [score_product, itemStage, brandStage, styleStage,
        genderStage, kidsStage, colorStage, sizeStage, compute_price_score,
        onlyKidsF, Option.getD, hkid, reduceIte, ratingOf]
      show some ((0 : ℚ) ⊔ 100 ⊓ round2 (0 + 15 +
          (if p.url ≠ "" then (1 : ℚ) else 0) +
          (if p.title ≠ "" then (1 : ℚ) else 0) + 0)) =
        some (15 + (if p.url ≠ "" then (1 : ℚ) else 0) +
          (if p.title ≠ "" then 1 else 0))
      split_ifs <;> decide
    · simp only [score_product, itemStage, brandStage, styleStage,
        genderStage, kidsStage, colorStage, sizeStage, compute_price_score,
        onlyKidsF, Option.getD, hkid, reduceIte]
      rfl
  · constructor
    · simp only [score_product, itemStage, brandStage, styleStage,
        genderStage, kidsStage, colorStage, sizeStage, compute_price_score,
        onlyKidsF, Option.getD, hkid, reduceIte]
      rfl
    · simp only [score_product, itemStage, brandStage, styleStage,
        genderStage, kidsStage, colorStage, sizeStage, compute_price_score,
        onlyKidsF, Option.getD, hkid, reduceIte]
      rfl
  · constructor
    · simp only [score_product, itemStage, brandStage, styleStage,
        genderStage, kidsStage, colorStage, sizeStage, compute_price_score,
        onlyKidsF, Option.getD, hkid, reduceIte, ratingOf]
      show some ((0 : ℚ) ⊔ 100 ⊓ round2 (0 + 15/2 +
          (if p.url ≠ "" then (1 : ℚ) else 0) +
          (if p.title ≠ "" then (1 : ℚ) else 0) + 0)) =
        some (15/2 + (if p.url ≠ "" then (1 : ℚ) else 0) +
          (if p.title ≠ "" then 1 else 0))
      split_ifs <;> decide
    · simp only [score_product, itemStage, brandStage, styleStage,
        genderStage, kidsStage, colorStage, sizeStage, compute_price_score,
        onlyKidsF, Option.getD, hkid, reduceIte]
      rfl

/-- C4 witness: the amended theorem applied to concrete candidates
("hoodie herr" has no kids signal, "barnjeans" has). -/
theorem c4_kids_veto_witness :
    vetoOf (score_product ⟨"s", "t", "u", "hoodie herr", none, none, none⟩
      (onlyKidsF true)) = some (.s "expected_kids_but_not_kid") ∧
    ratingOf (score_product ⟨"s", "t", "u", "barnjeans", none, none, none⟩
      (onlyKidsF true)) = some 17 := by
  constructor
  · exact (c4_kids_veto.1 ⟨"s", "t", "u", "hoodie herr", none, none, none⟩
      (by decide)).2
  · have h := (c4_kids_veto.2.1 ⟨"s", "t", "u", "barnjeans", none, none, none⟩
      (by decide)).1
    rw [h]
    decide

/-- An item-stage early return always carries rating 0 and a trailing
veto entry. -/
theorem itemStage_done (t : String) (f : Filters) (r : ℚ × Breakdown) :
    itemStage t f = .done r →
    ∃ bd v, r = (0, bd ++ [("veto", BVal.s v)]) := by
  unfold itemStage
  dsimp only
  split_ifs with h1 h2
  · intro h; simp at h
  · intro h; simp at h
  · intro h
    cases h
    exact ⟨[("item_match", .b false)], "item_mismatch", rfl⟩

/-- A gender-stage early return always carries rating 0 and a trailing
veto entry. -/
theorem genderStage_done (t : String) (p : Listing) (f : Filters)
    (s : ℚ) (bd : Breakdown) (r : ℚ × Breakdown) :
    genderStage t p f s bd = .done r →
    ∃ bd2 v, r = (0, bd2 ++ [("veto", BVal.s v)]) := by
  unfold genderStage
  dsimp only
  split_ifs with h1 h2 h3 h4
  · intro h; simp at h
  · intro h
    cases h
    exact ⟨_, "gender_mismatch", rfl⟩
  · intro h; simp at h
  · intro h; simp at h
  · intro h; simp at h

/-- C7: the child-size detection of `is_kids_size_in_text` accepts every
standalone two-or-three digit number from 90 through 179 — including a
bare price token like "150" in "150 kr", and the values 171–179 above the
documented 90–170 child range — without any kids vocabulary; and under
`filters.kids = false`, `score_product` returns rating 0 with a recorded
veto reason for every candidate whose text contains such a number
(the kids veto fires unless the item or gender stage already vetoed). -/
theorem c7_kids_number_range :
    (∀ t : String, ¬ t = "" →
      kidsNumScan false (cleanText t).data = true →
      is_kids_size_in_text t = true) ∧
    is_kids_size_in_text "150 kr" = true ∧
    is_kids_size_in_text "herr strl 175" = true ∧
    (∀ (p : Listing) (f : Filters), f.kids = some false →
      kidsNumScan false (cleanText (lowerS (effText p))).data = true →
      ∃ bd v, score_product p f = .ok (0, bd ++ [("veto", BVal.s v)])) := by
  refine ⟨fun t ht hnum => ?_, by decide, by decide, fun p f hkf hnum => ?_⟩
  · unfold is_kids_size_in_text
    rw [if_neg ht]
    dsimp only
    rw [if_pos hnum]
  · have htne : ¬ (lowerS (effText p)) = "" := by
      intro h0
      rw [h0] at hnum
      exact absurd hnum (by decide)
    have hk1 : is_kids_size_in_text (lowerS (effText p)) = true := by
      unfold is_kids_size_in_text
      rw [if_neg htne]
      dsimp only
      rw [if_pos hnum]
    have hkid : kidDetected (lowerS (effText p)) = true := by
      unfold kidDetected
      rw [hk1]
      rfl
    have hks : ∀ (s : ℚ) (bd : Breakdown),
        kidsStage (lowerS (effText p)) f s bd =
          .done (0, (bd ++ [("is_kid_detected", .b true)]) ++
            [("veto", .s "expected_adult_but_is_kid")]) := by
      intro s bd
      unfold kidsStage
      dsimp only
      rw [hkf]
      simp only [hkid, reduceIte]
    unfold score_product
    dsimp only
    cases hI : itemStage (lowerS (effText p)) f with
    | done r =>
      obtain ⟨bd, v, hr⟩ := itemStage_done _ _ _ hI
      exact ⟨bd, v, by dsimp only; rw [hr]⟩
    | cont s1 bd1 =>
      dsimp only
      cases hG : genderStage (lowerS (effText p)) p f
          (styleStage (lowerS (effText p)) f
            (brandStage (lowerS (effText p)) f s1 bd1).1
            (brandStage (lowerS (effText p)) f s1 bd1).2).1
          (styleStage (lowerS (effText p)) f
            (brandStage (lowerS (effText p)) f s1 bd1).1
            (brandStage (lowerS (effText p)) f s1 bd1).2).2 with
      | done r =>
        obtain ⟨bd2, v, hr⟩ := genderStage_done _ _ _ _ _ _ hG
        exact ⟨bd2, v, by dsimp only; rw [hr]⟩
      | cont s4 bd4 =>
        dsimp only
        rw [hks s4 bd4]
        exact ⟨bd4 ++ [("is_kid_detected", .b true)],
          "expected_adult_but_is_kid", rfl⟩

/-- C7 witness: a concrete adult search (`kids=false`) over a candidate
whose text contains the standalone number 175 is vetoed to rating 0. -/
theorem c7_kids_number_range_witness :
    ∃ bd v, score_product ⟨"s", "t", "u", "jeans herr strl 175", none, none, none⟩
      ⟨none, some "jeans", none, none, none, none, some false, none⟩ =
      .ok (0, bd ++ [("veto", BVal.s v)]) :=
  c7_kids_number_range.2.2.2
    ⟨"s", "t", "u", "jeans herr strl 175", none, none, none⟩
    ⟨none, some "jeans", none, none, none, none, some false, none⟩
    rfl (by decide)

/-- C1 counterexample: one candidate is collected and it is vetoed
(filters ask for "jeans", the text has none), yet `find_best_across_sites`
returns the empty list — not a non-empty fallback — and the route turns
that into the 404 no-results response. -/
theorem c1_counterexample :
    findTop [⟨"s", "t", "u", "bara en bok", none, none, none⟩]
      ⟨none, some "jeans", none, none, none, none, none, none⟩ 6 = [] ∧
    ([⟨"s", "t", "u", "bara en bok", none, none, none⟩] : List Listing) ≠ [] ∧
    route_status (findTop [⟨"s", "t", "u", "bara en bok", none, none, none⟩]
      ⟨none, some "jeans", none, none, none, none, none, none⟩ 6) = 404 := by
  exact ⟨by decide, by decide, by decide⟩

/-- C1 (amended): there is no fallback — the scoring loop keeps only
candidates with rating strictly above 0, so when every collected candidate
is vetoed to rating 0 (or raises), `find_best_across_sites` returns the
empty list and `find_item_route` answers with the 404 no-results
response instead of a least-bad ranked list. -/
theorem c1_all_vetoed_empty :
    ∀ (cands : List Listing) (f : Filters),
      (∀ c ∈ cands, (scoreSafe c f).1 = 0) →
      findTop cands f 6 = [] ∧
      route_status (findTop cands f 6) = 404 := by
  intro cands f h
  have hs : scoredOf cands f = [] := by
    induction cands with
    | nil => rfl
    | cons c t ih =>
      have hc : (scoreSafe c f).1 = 0 := h c (by simp)
      simp only [scoredOf, List.map_cons, List.filter_cons]
      have hr : (attachScore f c).rating = (scoreSafe c f).1 := rfl
      rw [if_neg (by simp [hr, hc])]
      exact ih (fun d hd => h d (by simp [hd]))
  constructor
  · unfold findTop
    rw [hs]
    rfl
  · unfold route_status findTop
    rw [hs]
    rfl

/-- C1 witness: the amended theorem applied to a concrete all-vetoed
candidate list. -/
theorem c1_all_vetoed_empty_witness :
    findTop [⟨"s", "t", "u", "en annons", none, none, none⟩]
      ⟨none, some "hoodie", none, none, none, none, none, none⟩ 6 = [] :=
  (c1_all_vetoed_empty [⟨"s", "t", "u", "en annons", none, none, none⟩]
    ⟨none, some "hoodie", none, none, none, none, none, none⟩
    (by decide)).1

/-- C2 counterexample: two adapters return candidates with the same URL
"u" and different titles; with an unrestricted filter set both score
positively and BOTH appear in the final ranked list — the count for that
URL is 2, not 1. -/
theorem c2_counterexample :
    countUrlS (findTop (mergeCandidates
      [[⟨"Vinted", "titel a", "u", "jeans fina", none, none, none⟩],
       [⟨"Tradera", "titel b", "u", "jeans grova", none, none, none⟩]])
      ⟨none, none, none, none, none, none, none, none⟩ 6) "u" = 2 ∧
    (2 : ℕ) ≠ 1 := by
  exact ⟨by decide, by decide⟩

/-- Unfolding of the URL count over a cons cell. -/
theorem countUrlA_cons (c : CandA) (t : List CandA) (u : String) :
    countUrlA (c :: t) u = (if c.url = u then 1 else 0) + countUrlA t u := by
  simp only [countUrlA, List.filter_cons]
  split
  · next h =>
    rw [if_pos (by simpa using h)]
    simp [Nat.add_comm]
  · next h =>
    rw [if_neg (by simpa using h)]
    simp

/-- Counting worker for the app.py deduplication invariant. -/
theorem dedupeGo_count (u : String) (hu : ¬ u = "") :
    ∀ (cs : List CandA) (seen : List String),
      countUrlA (dedupeGo seen cs) u =
        if u ∈ seen then 0 else min 1 (countUrlA cs u) := by
  intro cs
  induction cs with
  | nil =>
    intro seen
    simp only [dedupeGo, countUrlA, List.filter_nil, List.length_nil]
    split <;> simp
  | cons c t ih =>
    intro seen
    simp only [dedupeGo]
    by_cases hce : c.url = ""
    · rw [if_pos hce, ih seen, countUrlA_cons]
      have hcu : ¬ (c.url = u) := by rw [hce]; exact fun h => hu h.symm
      rw [if_neg hcu]
      simp
    · rw [if_neg hce]
      by_cases hseen : c.url ∈ seen
      · rw [if_pos hseen, ih seen, countUrlA_cons]
        by_cases hu2 : u ∈ seen
        · rw [if_pos hu2, if_pos hu2]
        · have hcu : ¬ (c.url = u) := fun h => hu2 (h ▸ hseen)
          rw [if_neg hu2, if_neg hu2, if_neg hcu]
          simp
      · rw [if_neg hseen, countUrlA_cons, ih (c.url :: seen), countUrlA_cons]
        by_cases hcu : c.url = u
        · rw [if_pos hcu,
            if_pos (show u ∈ c.url :: seen by
              rw [hcu]; exact List.mem_cons_self _ _)]
          have hu2 : ¬ u ∈ seen := fun h => hseen (hcu ▸ h)
          rw [if_neg hu2]
          omega
        · rw [if_neg hcu]
          by_cases hu2 : u ∈ seen
          · rw [if_pos (List.mem_cons_of_mem _ hu2), if_pos hu2]
          · rw [if_neg (show ¬ u ∈ c.url :: seen from by
                intro h
                rcases List.mem_cons.mp h with h1 | h1
                · exact hcu h1.symm
                · exact hu2 h1), if_neg hu2]
            simp

/-- C2 (amended): the orchestrator of main.py performs NO deduplication —
the merged candidate collection is the concatenation of the adapters'
lists, so the number of candidates carrying a URL is the sum over the
sites, and same-URL candidates from different adapters each get enriched,
scored and ranked.  (Each scraper deduplicates only within its own site;
the simpler app.py `/search` variant does deduplicate by URL before
scoring, keeping the first-seen candidate, so there the count per present
URL is exactly 1.) -/
theorem c2_no_cross_site_dedup :
    (∀ (rss : List (List Listing)) (u : String),
      countUrlL (mergeCandidates rss) u =
        (rss.map (fun l => countUrlL l u)).sum) ∧
    (∀ (cs : List CandA) (u : String), ¬ u = "" →
      countUrlA (dedupe_by_url cs) u = min 1 (countUrlA cs u)) := by
  constructor
  · intro rss u
    induction rss with
    | nil => rfl
    | cons l t ih =>
      simp only [mergeCandidates, List.flatten_cons, countUrlL,
        List.filter_append, List.length_append, List.map_cons,
        List.sum_cons] at ih ⊢
      rw [ih]
  · intro cs u hu
    unfold dedupe_by_url
    rw [dedupeGo_count u hu cs []]
    rfl

/-- C2 witness: the amended theorem applied to a concrete two-adapter
merge with a shared URL and to a concrete app.py dedup. -/
theorem c2_no_cross_site_dedup_witness :
    countUrlL (mergeCandidates
      [[⟨"Vinted", "titel a", "u", "jeans fina", none, none, none⟩],
       [⟨"Tradera", "titel b", "u", "jeans grova", none, none, none⟩]]) "u" = 2 ∧
    countUrlA (dedupe_by_url [⟨"a", none, "u", "s1"⟩, ⟨"b", none, "u", "s2"⟩]) "u" = 1 := by
  constructor
  · rw [c2_no_cross_site_dedup.1
      [[⟨"Vinted", "titel a", "u", "jeans fina", none, none, none⟩],
       [⟨"Tradera", "titel b", "u", "jeans grova", none, none, none⟩]] "u"]
    decide
  · rw [c2_no_cross_site_dedup.2
      [⟨"a", none, "u", "s1"⟩, ⟨"b", none, "u", "s2"⟩] "u" (by decide)]
    decide

/-- The price tie-break order is total. -/
theorem priceNormLe_total (a b : Option ℚ) :
    priceNormLe a b = true ∨ priceNormLe b a = true := by
  cases a <;> cases b <;> simp [priceNormLe]
  exact le_total _ _

/-- The price tie-break order is transitive. -/
theorem priceNormLe_trans : ∀ {a b c : Option ℚ},
    priceNormLe a b = true → priceNormLe b c = true →
    priceNormLe a c = true := by
  intro a b c h1 h2
  cases a <;> cases b <;> cases c <;> simp_all [priceNormLe]
  exact le_trans h1 h2

/-- The sort key comparison is total. -/
theorem keyLe_total (x y : ScoredP) :
    keyLe x y = true ∨ keyLe y x = true := by
  unfold keyLe
  by_cases h : x.rating = y.rating
  · rw [if_pos h, if_pos h.symm]
    exact priceNormLe_total _ _
  · rw [if_neg h, if_neg (fun h2 => h h2.symm)]
    rcases lt_trichotomy x.rating y.rating with h1 | h1 | h1
    · right; exact decide_eq_true h1
    · exact absurd h1 h
    · left; exact decide_eq_true h1

/-- The sort key comparison is transitive. -/
theorem keyLe_trans : ∀ {x y z : ScoredP},
    keyLe x y = true → keyLe y z = true → keyLe x z = true := by
  intro x y z h1 h2
  unfold keyLe at h1 h2 ⊢
  by_cases e1 : x.rating = y.rating <;> by_cases e2 : y.rating = z.rating
  · rw [if_pos e1] at h1
    rw [if_pos e2] at h2
    rw [if_pos (e1.trans e2)]
    exact priceNormLe_trans h1 h2
  · rw [if_neg e2] at h2
    have hz : z.rating < y.rating := of_decide_eq_true h2
    have hz2 : z.rating < x.rating := by rw [e1]; exact hz
    rw [if_neg (ne_of_lt hz2).symm]
    exact decide_eq_true hz2
  · rw [if_neg e1] at h1
    have hy : y.rating < x.rating := of_decide_eq_true h1
    have hz2 : z.rating < x.rating := by rw [← e2]; exact hy
    rw [if_neg (ne_of_lt hz2).symm]
    exact decide_eq_true hz2
  · rw [if_neg e1] at h1
    rw [if_neg e2] at h2
    have hy : y.rating < x.rating := of_decide_eq_true h1
    have hz : z.rating < y.rating := of_decide_eq_true h2
    have hz2 : z.rating < x.rating := lt_trans hz hy
    rw [if_neg (ne_of_lt hz2).symm]
    exact decide_eq_true hz2

/-- Stable insertion produces a permutation of the cons. -/
theorem insertK_perm (x : ScoredP) :
    ∀ l : List ScoredP, List.Perm (insertK x l) (x :: l) := by
  intro l
  induction l with
  | nil => exact List.Perm.refl _
  | cons h t ih =>
    unfold insertK
    split
    · exact ((ih.cons h).trans (List.Perm.swap x h t))
    · exact List.Perm.refl _

/-- Stable insertion preserves sortedness by the key order. -/
theorem insertK_sorted (x : ScoredP) :
    ∀ l : List ScoredP, l.Pairwise (fun a b => keyLe a b = true) →
      (insertK x l).Pairwise (fun a b => keyLe a b = true) := by
  intro l
  induction l with
  | nil => intro _; exact List.pairwise_singleton _ _
  | cons h t ih =>
    intro hs
    rcases List.pairwise_cons.mp hs with ⟨hh, ht⟩
    unfold insertK
    split
    · next hkey =>
      refine List.pairwise_cons.mpr ⟨?_, ih ht⟩
      intro y hy
      rcases List.mem_cons.mp ((insertK_perm x t).mem_iff.mp hy) with h1 | h1
      · rw [h1]; exact hkey
      · exact hh y h1
    · next hkey =>
      have hxh : keyLe x h = true := by
        rcases keyLe_total h x with h1 | h1
        · exact absurd h1 hkey
        · exact h1
      refine List.pairwise_cons.mpr ⟨?_, hs⟩
      intro y hy
      rcases List.mem_cons.mp hy with h1 | h1
      · rw [h1]; exact hxh
      · exact keyLe_trans hxh (hh y h1)

/-- The fold of stable insertions permutes the accumulator and the input. -/
theorem sortStable_fold_perm :
    ∀ (l acc : List ScoredP),
      List.Perm (l.foldl (fun acc x => insertK x acc) acc) (acc ++ l) := by
  intro l
  induction l with
  | nil => intro acc; simp
  | cons x t ih =>
    intro acc
    have p1 := ih (insertK x acc)
    have p2 := (insertK_perm x acc).append_right t
    exact p1.trans (p2.trans List.perm_middle.symm)

/-- The fold of stable insertions preserves sortedness. -/
theorem sortStable_fold_sorted :
    ∀ (l acc : List ScoredP),
      acc.Pairwise (fun a b => keyLe a b = true) →
      (l.foldl (fun acc x => insertK x acc) acc).Pairwise
        (fun a b => keyLe a b = true) := by
  intro l
  induction l with
  | nil => intro acc h; exact h
  | cons x t ih => intro acc h; exact ih _ (insertK_sorted x acc h)

/-- C10: for every request, the ranking stage returns a prefix (the first
6 entries) of a permutation of the positively-scored candidates that is
sorted primarily by rating descending, with ties broken by page price
ascending and an absent price ordered after every equal-rated candidate
with a price. -/
theorem c10_ranking (enriched : List Listing) (f : Filters) :
    ∃ l' : List ScoredP,
      List.Perm (scoredOf enriched f) l' ∧
      l'.Pairwise (fun a b => b.rating < a.rating ∨
        (a.rating = b.rating ∧ priceNormLe a.priceNorm b.priceNorm = true)) ∧
      findTop enriched f 6 = l'.take 6 := by
  refine ⟨sortStable (scoredOf enriched f), ?_, ?_, ?_⟩
  · exact ((sortStable_fold_perm (scoredOf enriched f) []).symm)
  · have hs := sortStable_fold_sorted (scoredOf enriched f) []
      (List.Pairwise.nil)
    refine List.Pairwise.imp ?_ hs
    intro a b hab
    unfold keyLe at hab
    by_cases h : a.rating = b.rating
    · rw [if_pos h] at hab
      exact Or.inr ⟨h, hab⟩
    · rw [if_neg h] at hab
      exact Or.inl (of_decide_eq_true hab)
  · unfold findTop
    dsimp only
    split
    · next h =>
      rw [h]
      rfl
    · rfl
